import Mathlib

/-!
Verification of the OCR field-extraction service
(`backend/python/ocr/app.py`) against its specification.

The Python module is shallowly embedded below: strings are modelled as
`String` / `List Char` (ASCII semantics for case conversion, digit tests
and whitespace), the regular expression `NRIC_PATTERN` is modelled by an
explicit leftmost-search matcher, and the effectful resolver and endpoint
are modelled by functions parameterised over the external world (HTTP
fetch, file open, image decode, recognition engine), returning `Except`
values plus an event trace where the claims need one.
-/

/-! ## Basic character and string helpers (ASCII models of Python builtins) -/

/-- ASCII word character: the regex character class `\w`. -/
def isWordChar (c : Char) : Bool := c.isAlphanum || c = '_'

/-- ASCII whitespace stripped by Python `str.strip()`. -/
def isPySpace (c : Char) : Bool :=
  c = ' ' || c = '\t' || c = '\n' || c = '\r' || c = '\x0b' || c = '\x0c'

/-- `beginsWith p cs` : `p` is an initial segment of `cs`. -/
def beginsWith : List Char → List Char → Bool
  | [], _ => true
  | _ :: _, [] => false
  | p :: ps, c :: cs => p = c && beginsWith ps cs

/-- `containsSub pat cs` : `pat` occurs contiguously in `cs`
(Python `pat in cs`). -/
def containsSub (pat : List Char) : List Char → Bool
  | [] => beginsWith pat []
  | c :: cs => beginsWith pat (c :: cs) || containsSub pat cs

/-- Python `s.startswith(p)`. -/
def strStartsWith (s p : String) : Bool := beginsWith p.data s.data

/-- Python `str.upper()` (ASCII). -/
def upperStr (s : String) : String := (s.data.map Char.toUpper).asString

/-- Python `int(...)` on a string of decimal digits. -/
def digitsVal (cs : List Char) : Nat :=
  cs.foldl (fun a c => a * 10 + (c.toNat - 48)) 0

/-- Python `s.split("-")[0]`: the segment before the first hyphen. -/
def takeUntilDash (cs : List Char) : List Char := cs.takeWhile (fun c => c ≠ '-')

/-- Python `sep.join(parts)`. -/
def joinSep (sep : List Char) : List (List Char) → List Char
  | [] => []
  | [x] => x
  | x :: y :: rest => x ++ sep ++ joinSep sep (y :: rest)

/-! ## The NRIC regular expression

`NRIC_PATTERN = \b(\d{6})[- ]?(\d{2})[- ]?(\d{4})\b`, applied with
`re.search` (leftmost match wins).  `takeDigits n` consumes exactly `n`
digits; `skipSep` consumes one optional `[- ]` separator (the following
atom is a digit, so the regex's optional group consumes a separator
character exactly when one is present); `matchNric` is one anchored
attempt at the current position including the trailing `\b`;
`nricSearchAux` scans positions left to right carrying whether the
previous character is a word character (for the leading `\b`). -/

def takeDigits : Nat → List Char → Option (List Char × List Char)
  | 0, cs => some ([], cs)
  | _ + 1, [] => none
  | n + 1, c :: cs =>
    if c.isDigit then
      match takeDigits n cs with
      | some (g, r) => some (c :: g, r)
      | none => none
    else none

def skipSep : List Char → List Char
  | [] => []
  | c :: cs => if c = '-' || c = ' ' then cs else c :: cs

def matchNric (cs : List Char) : Option (List Char × List Char × List Char) :=
  match takeDigits 6 cs with
  | none => none
  | some (g1, r1) =>
    match takeDigits 2 (skipSep r1) with
    | none => none
    | some (g2, r2) =>
      match takeDigits 4 (skipSep r2) with
      | none => none
      | some (g3, r3) =>
        match r3 with
        | [] => some (g1, g2, g3)
        | c :: _ => if isWordChar c then none else some (g1, g2, g3)

def nricSearchAux : List Char → Bool → Option (List Char × List Char × List Char)
  | [], _ => none
  | c :: cs, prevWord =>
    match if prevWord then none else matchNric (c :: cs) with
    | some g => some g
    | none => nricSearchAux cs (isWordChar c)

def nricSearch (cs : List Char) : Option (List Char × List Char × List Char) :=
  nricSearchAux cs false

/-- The normalized form `f"{g1}-{g2}-{g3}"` built from the three groups. -/
def normalizedIc (g1 g2 g3 : List Char) : String :=
  (g1 ++ ('-' :: (g2 ++ ('-' :: g3)))).asString

/-! ## Line preprocessing and the per-field heuristics of `parse_fields` -/

/-- Python `str.splitlines()` restricted to the `\n`, `\r`, `\r\n`
terminators (trailing-empty-line differences are irrelevant here because
blank lines are filtered out afterwards). -/
def splitLinesAux : List Char → List Char → List (List Char)
  | acc, [] => [acc.reverse]
  | acc, '\r' :: '\n' :: cs => acc.reverse :: splitLinesAux [] cs
  | acc, '\n' :: cs => acc.reverse :: splitLinesAux [] cs
  | acc, '\r' :: cs => acc.reverse :: splitLinesAux [] cs
  | acc, c :: cs => splitLinesAux (c :: acc) cs

/-- Python `str.strip()`. -/
def stripChars (cs : List Char) : List Char :=
  ((cs.dropWhile isPySpace).reverse.dropWhile isPySpace).reverse

/-- `lines = [ln.strip() for ln in upper.splitlines() if ln.strip()]`. -/
def docLines (text : String) : List (List Char) :=
  ((splitLinesAux [] (upperStr text).data).map stripChars).filter
    (fun ln => !ln.isEmpty)

/-- The name heuristic on one line:
`len(ln) > 2 and not any(ch.isdigit() for ch in ln) and
 "MALAYSIA" not in ln and "KAD" not in ln`. -/
def nameOk (ln : List Char) : Bool :=
  decide (2 < ln.length) && !ln.any Char.isDigit &&
    !containsSub "MALAYSIA".data ln && !containsSub "KAD".data ln

def addressKeywords : List String :=
  ["JALAN", "NO.", "TAMAN", "KUALA", "SELANGOR", "JOHOR", "SABAH",
   "SARAWAK", "MELAKA", "NEGERI", "PERAK", "PENANG", "PULAU"]

/-- `any(kw in ln for kw in keywords)`. -/
def hasAddressKeyword (ln : List Char) : Bool :=
  addressKeywords.any (fun kw => containsSub kw.data ln)

structure ExtractedFields where
  name : Option String
  ic_number : Option String
  dob : Option String
  address : Option String
deriving Repr, DecidableEq

/-- Lines 53-56 of the source: derive the date of birth from the
(normalized) IC number string. -/
def dobOfIc (ic : String) : String :=
  let yymmdd := takeUntilDash ic.data
  let yy := digitsVal (yymmdd.take 2)
  let mm := (yymmdd.drop 2).take 2
  let dd := (yymmdd.drop 4).take 2
  let century := if 40 ≤ yy then 1900 else 2000
  toString (century + yy) ++ "-" ++ mm.asString ++ "-" ++ dd.asString

/-- `parse_fields` from the source, field by field. -/
def parse_fields (text : String) : ExtractedFields :=
  let upper := upperStr text
  let ic_number : Option String :=
    match nricSearch upper.data with
    | some (g1, g2, g3) => some (normalizedIc g1 g2 g3)
    | none => none
  let lines := docLines text
  let name : Option String := ((lines.take 8).find? nameOk).map List.asString
  let addr_lines := lines.filter hasAddressKeyword
  let address : Option String :=
    if addr_lines.isEmpty then none
    else some (joinSep ", ".data (addr_lines.take 3)).asString
  let dob : Option String :=
    match ic_number with
    | none => none
    | some ic => some (dobOfIc ic)
  { name, ic_number, dob, address }

/-! ## The image resolver `read_image_bytes`

The external world is a parameter: `fetch url timeout` models
`requests.get(url, timeout=...)` followed by `raise_for_status()`
(`none` = transport failure, timeout or non-success status, all of which
raise), and `openF path` models `open(path, "rb").read()` (`none` = any
exception).  Alongside the result the embedding returns the trace of
world interactions, so that "exactly one GET" is a provable statement. -/

inductive ImgError where
  | FetchFailed : ImgError
  | NotFound : String → List String → ImgError
deriving Repr, DecidableEq

inductive FsEvent where
  | httpGet : String → Nat → FsEvent
  | fileOpen : String → FsEvent
deriving Repr, DecidableEq

/-- Python `s.lstrip("/")`. -/
def lstripSlashes (s : String) : String :=
  (s.data.dropWhile (fun c => c = '/')).asString

/-- The candidate list built by lines 68-77 of the source
(`os.path.join(root, rel)` is `root ++ "/" ++ rel` for these arguments). -/
def candidatePaths (url_path : String) : List String :=
  if strStartsWith url_path "/" then
    if strStartsWith url_path "/uploads" then
      [url_path, "/srv/" ++ lstripSlashes url_path, "/app/" ++ lstripSlashes url_path]
    else
      [url_path]
  else
    ["/srv/" ++ url_path, "/app/" ++ url_path]

/-- The `for p in candidates: try: open ... except: continue` loop. -/
def tryCandidates {β : Type} (openF : String → Option β) :
    List String → Option β × List FsEvent
  | [] => (none, [])
  | p :: ps =>
    match openF p with
    | some b => (some b, [FsEvent.fileOpen p])
    | none =>
      let r := tryCandidates openF ps
      (r.1, FsEvent.fileOpen p :: r.2)

def read_image_bytes {β : Type} (fetch : String → Nat → Option β)
    (openF : String → Option β) (url_path : String) :
    Except ImgError β × List FsEvent :=
  if strStartsWith url_path "http" then
    match fetch url_path 10 with
    | some b => (Except.ok b, [FsEvent.httpGet url_path 10])
    | none => (Except.error ImgError.FetchFailed, [FsEvent.httpGet url_path 10])
  else
    let cs := candidatePaths url_path
    match tryCandidates openF cs with
    | (some b, es) => (Except.ok b, es)
    | (none, es) => (Except.error (ImgError.NotFound url_path cs), es)

/-! ## `ocr_image_to_text` and the `/ocr` endpoint

`decode` models `cv2.imdecode` (`none` = decode failure, which the source
turns into the empty text), `engine` models `ocr_engine.ocr` returning
pages of line texts, possibly raising.  The endpoint `ocr` is
parameterised over the whole back/front pipeline primitives `read` and
`toText`; its control flow mirrors lines 106-124 of the source, including
Python's truthiness test on the optional `backUrl` and the bare
`except Exception: pass` around the entire back-image pipeline. -/

def ocr_image_to_text {β Img ε : Type} (decode : β → Option Img)
    (engine : Img → Except ε (List (List String))) (img_bytes : β) :
    Except ε String :=
  match decode img_bytes with
  | none => Except.ok ""
  | some img =>
    (engine img).map
      (fun pages => String.intercalate "\n" (pages.flatten.filter (fun t => !(t == ""))))

/-- Python truthiness of an optional string (`None` and `""` are falsy). -/
def truthy : Option String → Bool
  | none => false
  | some s => !(s == "")

/-- Lines 117-120 of the source: backfill `ic_number` and `address` only. -/
def mergeFields (fields back_fields : ExtractedFields) : ExtractedFields :=
  let f1 :=
    if !truthy fields.ic_number && truthy back_fields.ic_number then
      { fields with ic_number := back_fields.ic_number }
    else fields
  if !truthy f1.address && truthy back_fields.address then
    { f1 with address := back_fields.address }
  else f1

structure OcrRequest where
  frontUrl : String
  backUrl : Option String
deriving Repr, DecidableEq

/-- The body of the `try:` block of the back-image path: resolve,
recognize, extract; any raise propagates as `Except.error`. -/
def backPipeline {β ε : Type} (read : String → Except ε β)
    (toText : β → Except ε String) (burl : String) : Except ε ExtractedFields :=
  match read burl with
  | Except.error e => Except.error e
  | Except.ok back_bytes =>
    match toText back_bytes with
    | Except.error e => Except.error e
    | Except.ok back_text => Except.ok (parse_fields back_text)

/-- The `/ocr` endpoint handler: front failures propagate; the back
pipeline runs only when `backUrl` is truthy (Python: non-`None` and
non-empty) and its `except Exception: pass` shows as discarding the
error case of `backPipeline`. -/
def ocr {β ε : Type} (read : String → Except ε β)
    (toText : β → Except ε String) (req : OcrRequest) :
    Except ε ExtractedFields :=
  match read req.frontUrl with
  | Except.error e => Except.error e
  | Except.ok front_bytes =>
    match toText front_bytes with
    | Except.error e => Except.error e
    | Except.ok front_text =>
      let fields := parse_fields front_text
      match req.backUrl with
      | none => Except.ok fields
      | some burl =>
        if burl == "" then Except.ok fields
        else
          match backPipeline read toText burl with
          | Except.error _ => Except.ok fields
          | Except.ok back_fields => Except.ok (mergeFields fields back_fields)

/-! ## Specification-side definitions

These follow the words of the specification (not the source) and are
compared with the source-derived definitions in the claim theorems. -/

/-- Modelled from the spec: the date of birth derived from an ID number,
"with YY the integer value of the ID number's first two digits, MM its
digits 3-4 and DD its digits 5-6, the date of birth equals the string
CCYY-MM-DD where the century is 1900 when YY >= 40 and 2000 when
YY < 40". -/
def specDob (ic : String) : String :=
  let ds := ic.data.filter Char.isDigit
  let yy := digitsVal (ds.take 2)
  let mm := (ds.drop 2).take 2
  let dd := (ds.drop 4).take 2
  let century := if 40 ≤ yy then 1900 else 2000
  toString (century + yy) ++ "-" ++ mm.asString ++ "-" ++ dd.asString

/-- Modelled from the spec (claim C4's reading): at offset `i` the text
carries the bare ID digit pattern "six digits, two digits, four digits,
with each separator a hyphen, a space, or absent" — with no condition at
all on the surrounding characters. -/
def IcShapeAt (cs : List Char) (i : Nat) (g1 g2 g3 : List Char) : Prop :=
  g1.length = 6 ∧ g2.length = 2 ∧ g3.length = 4 ∧
  (∀ c ∈ g1, c.isDigit = true) ∧ (∀ c ∈ g2, c.isDigit = true) ∧
  (∀ c ∈ g3, c.isDigit = true) ∧
  ∃ pre s1 s2 rest,
    cs = pre ++ (g1 ++ (s1 ++ (g2 ++ (s2 ++ (g3 ++ rest))))) ∧
    pre.length = i ∧
    (s1 = [] ∨ s1 = ['-'] ∨ s1 = [' ']) ∧
    (s2 = [] ∨ s2 = ['-'] ∨ s2 = [' '])

/-- The ID digit pattern at offset `i`, additionally delimited on both
sides: not immediately preceded nor followed by a word character
(letter, digit or underscore).  This is the occurrence notion the source
regex actually recognizes via its two word boundaries. -/
def IcOccursAt (cs : List Char) (i : Nat) (g1 g2 g3 : List Char) : Prop :=
  g1.length = 6 ∧ g2.length = 2 ∧ g3.length = 4 ∧
  (∀ c ∈ g1, c.isDigit = true) ∧ (∀ c ∈ g2, c.isDigit = true) ∧
  (∀ c ∈ g3, c.isDigit = true) ∧
  ∃ pre s1 s2 rest,
    cs = pre ++ (g1 ++ (s1 ++ (g2 ++ (s2 ++ (g3 ++ rest))))) ∧
    pre.length = i ∧
    (s1 = [] ∨ s1 = ['-'] ∨ s1 = [' ']) ∧
    (s2 = [] ∨ s2 = ['-'] ∨ s2 = [' ']) ∧
    (pre = [] ∨ ∃ p c, pre = p ++ [c] ∧ isWordChar c = false) ∧
    (rest = [] ∨ ∃ c t, rest = c :: t ∧ isWordChar c = false)

/-- `wordB cs prev i` : whether the character just before offset `i` is a
word character, where `prev` records that fact for offset `0` (the scan
state `nricSearchAux` carries). -/
def wordBAux : Nat → List Char → Bool → Bool
  | 0, _, prev => prev
  | i + 1, cs, _ =>
    match cs with
    | [] => false
    | c :: cs2 => wordBAux i cs2 (isWordChar c)

def wordB (cs : List Char) (prev : Bool) (i : Nat) : Bool := wordBAux i cs prev

/-! ## Lemmas about the regex model -/

theorem takeDigits_sound : ∀ (n : Nat) (cs g r : List Char),
    takeDigits n cs = some (g, r) →
    g.length = n ∧ (∀ c ∈ g, c.isDigit = true) ∧ cs = g ++ r := by
  intro n
  induction n with
  | zero =>
    intro cs g r h
    simp [takeDigits] at h
    simp [h.1, h.2]
  | succ n ih =>
    intro cs g r h
    match cs with
    | [] => simp [takeDigits] at h
    | c :: cs =>
      simp only [takeDigits] at h
      by_cases hc : c.isDigit
      · rw [if_pos hc] at h
        match hd : takeDigits n cs with
        | none => rw [hd] at h; exact absurd h (by simp)
        | some (g0, r0) =>
          rw [hd] at h
          simp only [Option.some.injEq, Prod.mk.injEq] at h
          obtain ⟨hg, hr⟩ := h
          obtain ⟨hl, hdig, heq⟩ := ih cs g0 r0 hd
          subst hg hr
          refine ⟨by simp [hl], ?_, by simp [heq]⟩
          intro x hx
          rcases List.mem_cons.mp hx with h1 | h2
          · subst h1; exact hc
          · exact hdig x h2
      · rw [if_neg hc] at h; exact absurd h (by simp)

theorem takeDigits_complete : ∀ (g r : List Char),
    (∀ c ∈ g, c.isDigit = true) →
    takeDigits g.length (g ++ r) = some (g, r) := by
  intro g
  induction g with
  | nil => intro r _; simp [takeDigits]
  | cons c g ih =>
    intro r hdig
    have hc : c.isDigit = true := hdig c (by simp)
    have hrec := ih r (fun x hx => hdig x (by simp [hx]))
    show takeDigits (g.length + 1) (c :: (g ++ r)) = some (c :: g, r)
    simp only [takeDigits, hc, if_true, hrec]

theorem skipSep_decomp (cs : List Char) :
    ∃ s, (s = [] ∨ s = ['-'] ∨ s = [' ']) ∧ cs = s ++ skipSep cs := by
  match cs with
  | [] => exact ⟨[], Or.inl rfl, rfl⟩
  | c :: cs =>
    by_cases h : c = '-' ∨ c = ' '
    · refine ⟨[c], ?_, ?_⟩
      · rcases h with h | h <;> simp [h]
      · have : (c = '-' || c = ' ') = true := by
          rcases h with h | h <;> simp [h]
        simp [skipSep, this]
    · push_neg at h
      have : (c = '-' || c = ' ') = false := by
        simp [h.1, h.2]
      exact ⟨[], Or.inl rfl, by simp [skipSep, this]⟩

theorem skipSep_sep (s cs : List Char) (hs : s = ['-'] ∨ s = [' ']) :
    skipSep (s ++ cs) = cs := by
  rcases hs with h | h <;> subst h <;> simp [skipSep]

theorem skipSep_digit (c : Char) (cs : List Char) (hc : c.isDigit = true) :
    skipSep (c :: cs) = c :: cs := by
  have h1 : c ≠ '-' := by intro h; subst h; exact absurd hc (by decide)
  have h2 : c ≠ ' ' := by intro h; subst h; exact absurd hc (by decide)
  simp [skipSep, h1, h2]

/-- Everything a successful anchored match tells us: group shapes and a
decomposition of the input with optional separators and the trailing
word-boundary condition. -/
theorem matchNric_sound (cs g1 g2 g3 : List Char)
    (h : matchNric cs = some (g1, g2, g3)) :
    g1.length = 6 ∧ g2.length = 2 ∧ g3.length = 4 ∧
    (∀ c ∈ g1, c.isDigit = true) ∧ (∀ c ∈ g2, c.isDigit = true) ∧
    (∀ c ∈ g3, c.isDigit = true) ∧
    ∃ s1 s2 rest,
      (s1 = [] ∨ s1 = ['-'] ∨ s1 = [' ']) ∧
      (s2 = [] ∨ s2 = ['-'] ∨ s2 = [' ']) ∧
      cs = g1 ++ (s1 ++ (g2 ++ (s2 ++ (g3 ++ rest)))) ∧
      (rest = [] ∨ ∃ c t, rest = c :: t ∧ isWordChar c = false) := by
  unfold matchNric at h
  split at h
  · exact absurd h (by simp)
  next g1' r1 h6 =>
    split at h
    · exact absurd h (by simp)
    next g2' r2 h2 =>
      split at h
      · exact absurd h (by simp)
      next g3' r3 h4 =>
        have heq : g1' = g1 ∧ g2' = g2 ∧ g3' = g3 ∧
            (r3 = [] ∨ ∃ c t, r3 = c :: t ∧ isWordChar c = false) := by
          cases r3 with
          | nil =>
            simp only [Option.some.injEq, Prod.mk.injEq] at h
            exact ⟨h.1, h.2.1, h.2.2, Or.inl rfl⟩
          | cons c t =>
            by_cases hw : isWordChar c
            · simp only [hw, if_true] at h
              exact absurd h (by simp)
            · simp only [hw, if_false, Option.some.injEq, Prod.mk.injEq,
                Bool.false_eq_true] at h
              exact ⟨h.1, h.2.1, h.2.2,
                Or.inr ⟨c, t, rfl, by simp [hw]⟩⟩
        obtain ⟨eg1, eg2, eg3, hrest⟩ := heq
        rw [eg1] at h6
        rw [eg2] at h2
        rw [eg3] at h4
        obtain ⟨l1, d1, q1⟩ := takeDigits_sound 6 cs g1 r1 h6
        obtain ⟨l2, d2, q2⟩ := takeDigits_sound 2 (skipSep r1) g2 r2 h2
        obtain ⟨l3, d3, q3⟩ := takeDigits_sound 4 (skipSep r2) g3 r3 h4
        obtain ⟨s1, hs1, e1⟩ := skipSep_decomp r1
        obtain ⟨s2, hs2, e2⟩ := skipSep_decomp r2
        refine ⟨l1, l2, l3, d1, d2, d3, s1, s2, r3, hs1, hs2, ?_, hrest⟩
        rw [q1, e1, q2, e2, q3]

/-- The converse: any suitably shaped decomposition is matched. -/
theorem matchNric_complete (g1 g2 g3 s1 s2 rest : List Char)
    (l1 : g1.length = 6) (l2 : g2.length = 2) (l3 : g3.length = 4)
    (d1 : ∀ c ∈ g1, c.isDigit = true) (d2 : ∀ c ∈ g2, c.isDigit = true)
    (d3 : ∀ c ∈ g3, c.isDigit = true)
    (hs1 : s1 = [] ∨ s1 = ['-'] ∨ s1 = [' '])
    (hs2 : s2 = [] ∨ s2 = ['-'] ∨ s2 = [' '])
    (hrest : rest = [] ∨ ∃ c t, rest = c :: t ∧ isWordChar c = false) :
    matchNric (g1 ++ (s1 ++ (g2 ++ (s2 ++ (g3 ++ rest))))) = some (g1, g2, g3) := by
  have t6 : takeDigits 6 (g1 ++ (s1 ++ (g2 ++ (s2 ++ (g3 ++ rest))))) =
      some (g1, s1 ++ (g2 ++ (s2 ++ (g3 ++ rest)))) := by
    rw [← l1]; exact takeDigits_complete g1 _ d1
  have sk1 : skipSep (s1 ++ (g2 ++ (s2 ++ (g3 ++ rest)))) =
      g2 ++ (s2 ++ (g3 ++ rest)) := by
    rcases hs1 with h | h
    · subst h
      match g2, l2 with
      | c :: g2', _ =>
        simp only [List.nil_append, List.cons_append]
        exact skipSep_digit c _ (d2 c (by simp))
    · exact skipSep_sep s1 _ h
  have t2 : takeDigits 2 (g2 ++ (s2 ++ (g3 ++ rest))) =
      some (g2, s2 ++ (g3 ++ rest)) := by
    rw [← l2]; exact takeDigits_complete g2 _ d2
  have sk2 : skipSep (s2 ++ (g3 ++ rest)) = g3 ++ rest := by
    rcases hs2 with h | h
    · subst h
      match g3, l3 with
      | c :: g3', _ =>
        simp only [List.nil_append, List.cons_append]
        exact skipSep_digit c _ (d3 c (by simp))
    · exact skipSep_sep s2 _ h
  have t4 : takeDigits 4 (g3 ++ rest) = some (g3, rest) := by
    rw [← l3]; exact takeDigits_complete g3 _ d3
  unfold matchNric
  rw [t6]
  simp only [sk1, t2, sk2, t4]
  rcases hrest with h | ⟨c, t, hct, hw⟩
  · subst h; rfl
  · subst hct
    simp [hw]

theorem matchNric_nil : matchNric [] = none := rfl

/-- `nricSearchAux` returns exactly the match at the leftmost position
whose leading word-boundary test passes. -/
theorem nricSearchAux_some_iff :
    ∀ (cs : List Char) (prev : Bool) (g : List Char × List Char × List Char),
    nricSearchAux cs prev = some g ↔
    ∃ i, wordB cs prev i = false ∧ matchNric (cs.drop i) = some g ∧
      ∀ j, j < i →
        ¬(wordB cs prev j = false ∧ (matchNric (cs.drop j)).isSome = true) := by
  intro cs
  induction cs with
  | nil =>
    intro prev g
    constructor
    · intro h; exact absurd h (by simp [nricSearchAux])
    · rintro ⟨i, _, hm, _⟩
      rw [List.drop_nil] at hm
      rw [matchNric_nil] at hm
      exact absurd hm (by simp)
  | cons c cs ih =>
    intro prev g
    cases h0 : (if prev then none else matchNric (c :: cs)) with
    | some g0 =>
      have hprev : prev = false := by
        cases prev
        · rfl
        · simp at h0
      have hm : matchNric (c :: cs) = some g0 := by
        rw [hprev] at h0; simpa using h0
      have hL : nricSearchAux (c :: cs) prev = some g0 := by
        simp [nricSearchAux, h0]
      rw [hL]
      constructor
      · intro h
        refine ⟨0, ?_, ?_, ?_⟩
        · show prev = false; exact hprev
        · rw [List.drop_zero, hm]; exact h
        · intro j hj; omega
      · rintro ⟨i, hw, hmi, hmin⟩
        cases i with
        | zero =>
          rw [List.drop_zero] at hmi
          rw [hm] at hmi
          exact hmi
        | succ k =>
          exact absurd ⟨hprev, by rw [List.drop_zero, hm]; rfl⟩ (hmin 0 (by omega))
    | none =>
      have hL : nricSearchAux (c :: cs) prev = nricSearchAux cs (isWordChar c) := by
        simp [nricSearchAux, h0]
      have h0' : ¬(wordB (c :: cs) prev 0 = false ∧
          (matchNric ((c :: cs).drop 0)).isSome = true) := by
        rintro ⟨hw, hs⟩
        have hprev : prev = false := hw
        rw [hprev] at h0
        simp only [if_false, Bool.false_eq_true] at h0
        rw [List.drop_zero] at hs
        rw [h0] at hs
        simp at hs
      rw [hL, ih (isWordChar c) g]
      constructor
      · rintro ⟨i, hw, hmi, hmin⟩
        refine ⟨i + 1, hw, ?_, ?_⟩
        · rwa [List.drop_succ_cons]
        · intro j hj
          cases j with
          | zero => exact h0'
          | succ m =>
            have := hmin m (by omega)
            rwa [List.drop_succ_cons]
      · rintro ⟨i, hw, hmi, hmin⟩
        cases i with
        | zero => exact absurd ⟨hw, by rw [hmi]; rfl⟩ h0'
        | succ k =>
          refine ⟨k, hw, ?_, ?_⟩
          · rwa [List.drop_succ_cons] at hmi
          · intro j hj
            have := hmin (j + 1) (by omega)
            rwa [List.drop_succ_cons] at this

theorem wordB_concat (p : List Char) (c : Char) (tail : List Char) (prev : Bool) :
    wordB ((p ++ [c]) ++ tail) prev (p ++ [c]).length = isWordChar c := by
  induction p generalizing prev with
  | nil => rfl
  | cons d p ih =>
    show wordB ((p ++ [c]) ++ tail) (isWordChar d) (p ++ [c]).length = isWordChar c
    exact ih (isWordChar d)

/-- A decomposition prefix whose last character is a non-word character
(or which is empty) makes the leading word-boundary test pass. -/
theorem wordB_boundary (pre tail : List Char)
    (hpre : pre = [] ∨ ∃ p c, pre = p ++ [c] ∧ isWordChar c = false) :
    wordB (pre ++ tail) false pre.length = false := by
  rcases hpre with h | ⟨p, c, hc, hw⟩
  · subst h; rfl
  · subst hc
    rw [wordB_concat]
    exact hw

/-- The word-boundary-delimited occurrence predicate coincides with "the
anchored matcher succeeds at offset `i` and the leading boundary test
passes". -/
theorem icOccursAt_iff (cs : List Char) (i : Nat) (g1 g2 g3 : List Char) :
    IcOccursAt cs i g1 g2 g3 ↔
      wordB cs false i = false ∧ matchNric (cs.drop i) = some (g1, g2, g3) := by
  constructor
  · rintro ⟨l1, l2, l3, d1, d2, d3, pre, s1, s2, rest, hcs, hlen, hs1, hs2, hpre, hrest⟩
    subst hcs
    have hdrop : ((pre ++ (g1 ++ (s1 ++ (g2 ++ (s2 ++ (g3 ++ rest)))))).drop i) =
        g1 ++ (s1 ++ (g2 ++ (s2 ++ (g3 ++ rest)))) := by
      rw [← hlen]; exact List.drop_left _ _
    constructor
    · rw [← hlen]
      exact wordB_boundary pre _ hpre
    · rw [hdrop]
      exact matchNric_complete g1 g2 g3 s1 s2 rest l1 l2 l3 d1 d2 d3 hs1 hs2 hrest
  · rintro ⟨hw, hm⟩
    obtain ⟨l1, l2, l3, d1, d2, d3, s1, s2, rest, hs1, hs2, hdeq, hrest⟩ :=
      matchNric_sound (cs.drop i) g1 g2 g3 hm
    have hne : cs.drop i ≠ [] := by
      intro h; rw [h, matchNric_nil] at hm; exact absurd hm (by simp)
    have hile : i ≤ cs.length := by
      by_contra h
      exact hne (List.drop_eq_nil_of_le (by omega))
    have hsplit : cs = cs.take i ++ cs.drop i := (List.take_append_drop i cs).symm
    have hlen : (cs.take i).length = i := by
      rw [List.length_take]; omega
    refine ⟨l1, l2, l3, d1, d2, d3, cs.take i, s1, s2, rest, ?_, hlen, hs1, hs2, ?_, hrest⟩
    · rw [← hdeq]; exact hsplit
    · rcases List.eq_nil_or_concat (cs.take i) with h | ⟨p, c, hc⟩
      · exact Or.inl h
      · rw [List.concat_eq_append] at hc
        refine Or.inr ⟨p, c, hc, ?_⟩
        have hcc := wordB_concat p c (cs.drop i) false
        rw [← hc] at hcc
        rw [List.take_append_drop] at hcc
        rw [hlen] at hcc
        rw [hw] at hcc
        exact hcc.symm

/-! ## Lemmas about `parse_fields` -/

theorem parse_fields_ic (text : String) :
    (parse_fields text).ic_number =
      match nricSearch (upperStr text).data with
      | some (g1, g2, g3) => some (normalizedIc g1 g2 g3)
      | none => none := rfl

theorem parse_fields_name (text : String) :
    (parse_fields text).name =
      (((docLines text).take 8).find? nameOk).map List.asString := rfl

theorem parse_fields_address (text : String) :
    (parse_fields text).address =
      (if ((docLines text).filter hasAddressKeyword).isEmpty then none
       else some (joinSep ", ".data
         (((docLines text).filter hasAddressKeyword).take 3)).asString) := rfl

theorem parse_fields_dob (text : String) :
    (parse_fields text).dob =
      match (parse_fields text).ic_number with
      | none => none
      | some ic => some (dobOfIc ic) := rfl

/-- Group shapes delivered by a successful search. -/
theorem nricSearch_groups (cs g1 g2 g3 : List Char)
    (h : nricSearch cs = some (g1, g2, g3)) :
    g1.length = 6 ∧ g2.length = 2 ∧ g3.length = 4 ∧
    (∀ c ∈ g1, c.isDigit = true) ∧ (∀ c ∈ g2, c.isDigit = true) ∧
    (∀ c ∈ g3, c.isDigit = true) := by
  obtain ⟨i, _, hm, _⟩ := (nricSearchAux_some_iff cs false _).mp h
  obtain ⟨l1, l2, l3, d1, d2, d3, _⟩ := matchNric_sound _ _ _ _ hm
  exact ⟨l1, l2, l3, d1, d2, d3⟩

theorem takeWhile_append_cons (p : Char → Bool) (l : List Char) (x : Char)
    (r : List Char) (hl : ∀ c ∈ l, p c = true) (hx : p x = false) :
    (l ++ x :: r).takeWhile p = l := by
  induction l with
  | nil => simp [List.takeWhile_cons, hx]
  | cons c l ih =>
    have hc : p c = true := hl c (by simp)
    simp only [List.cons_append, List.takeWhile_cons, hc, if_true]
    rw [ih (fun d hd => hl d (by simp [hd]))]

/-- On any searched IC number the source derivation and the
specification's digit-slicing formula agree. -/
theorem dobOfIc_eq_specDob (g1 g2 g3 : List Char) (l1 : g1.length = 6)
    (d1 : ∀ c ∈ g1, c.isDigit = true) (d2 : ∀ c ∈ g2, c.isDigit = true)
    (d3 : ∀ c ∈ g3, c.isDigit = true) :
    dobOfIc (normalizedIc g1 g2 g3) = specDob (normalizedIc g1 g2 g3) := by
  have hdata : (normalizedIc g1 g2 g3).data = g1 ++ ('-' :: (g2 ++ ('-' :: g3))) := rfl
  have h1 : takeUntilDash (g1 ++ ('-' :: (g2 ++ ('-' :: g3)))) = g1 := by
    unfold takeUntilDash
    apply takeWhile_append_cons
    · intro c hc
      have hd := d1 c hc
      simp only [ne_eq, decide_eq_true_eq]
      intro h
      subst h
      exact absurd hd (by decide)
    · simp
  have h2 : (g1 ++ ('-' :: (g2 ++ ('-' :: g3)))).filter Char.isDigit =
      g1 ++ (g2 ++ g3) := by
    rw [List.filter_append]
    rw [List.filter_cons_of_neg (by decide)]
    rw [List.filter_append]
    rw [List.filter_cons_of_neg (by decide)]
    rw [List.filter_eq_self.mpr d1, List.filter_eq_self.mpr d2,
      List.filter_eq_self.mpr d3]
  have htake2 : (g1 ++ (g2 ++ g3)).take 2 = g1.take 2 :=
    List.take_append_of_le_length (by omega)
  have hdrop2 : ((g1 ++ (g2 ++ g3)).drop 2).take 2 = (g1.drop 2).take 2 := by
    rw [List.drop_append_of_le_length (by omega)]
    exact List.take_append_of_le_length (by rw [List.length_drop]; omega)
  have hdrop4 : ((g1 ++ (g2 ++ g3)).drop 4).take 2 = (g1.drop 4).take 2 := by
    rw [List.drop_append_of_le_length (by omega)]
    exact List.take_append_of_le_length (by rw [List.length_drop]; omega)
  simp only [dobOfIc, specDob, hdata, h1, h2, htake2, hdrop2, hdrop4]

/-! ## Claim C1 -/

/-- Claim C1: the date of birth is present iff an ID number was matched;
when present it equals the spec's digit-slicing formula (century 1900 for
YY >= 40, else 2000, rendered `CCYY-MM-DD`), it is never derived from
free text, and the three boundary examples hold. -/
theorem claim_C1 :
    (∀ text : String,
      ((parse_fields text).dob.isSome ↔ (parse_fields text).ic_number.isSome) ∧
      ∀ ic, (parse_fields text).ic_number = some ic →
        (parse_fields text).dob = some (specDob ic))
    ∧ (parse_fields "900101-14-1234").dob = some "1990-01-01"
    ∧ (parse_fields "550101-14-1234").dob = some "1955-01-01"
    ∧ (parse_fields "390101-14-1234").dob = some "2039-01-01" := by
  refine ⟨?_, by decide, by decide, by decide⟩
  intro text
  constructor
  · have hic := parse_fields_ic text
    rw [parse_fields_dob text]
    cases h : nricSearch (upperStr text).data with
    | none =>
      rw [h] at hic
      rw [hic]
    | some g =>
      obtain ⟨g1, g2, g3⟩ := g
      rw [h] at hic
      rw [hic]
      rfl
  · intro ic hics
    rw [parse_fields_dob text, hics]
    have hic := parse_fields_ic text
    rw [hics] at hic
    cases h : nricSearch (upperStr text).data with
    | none =>
      rw [h] at hic
      exact absurd hic (by simp)
    | some g =>
      obtain ⟨g1, g2, g3⟩ := g
      rw [h] at hic
      simp only [Option.some.injEq] at hic
      obtain ⟨l1, l2, l3, d1, d2, d3⟩ := nricSearch_groups _ _ _ _ h
      rw [hic]
      show some (dobOfIc (normalizedIc g1 g2 g3)) =
        some (specDob (normalizedIc g1 g2 g3))
      rw [dobOfIc_eq_specDob g1 g2 g3 l1 d1 d2 d3]

/-- Witness for claim C1 at the spec's own example input. -/
theorem claim_C1_witness :
    (parse_fields "900101-14-1234").ic_number = some "900101-14-1234" ∧
    (parse_fields "900101-14-1234").dob = some (specDob "900101-14-1234") :=
  ⟨by decide, (claim_C1.1 "900101-14-1234").2 "900101-14-1234" (by decide)⟩

/-! ## Claim C10 -/

/-- Claim C10: the month and day digits are copied verbatim with no range
validation — an ID starting `991345` yields the dob string `1999-13-45`,
whose month value 13 exceeds 12 and day value 45 exceeds 31. -/
theorem claim_C10 :
    (∀ text : String, (parse_fields text).ic_number = some "991345-67-8901" →
      (parse_fields text).dob = some "1999-13-45")
    ∧ 12 < digitsVal "13".data ∧ 31 < digitsVal "45".data := by
  refine ⟨?_, by decide, by decide⟩
  intro text h
  rw [parse_fields_dob text, h]
  decide

/-- Witness for claim C10. -/
theorem claim_C10_witness :
    (parse_fields "991345-67-8901").dob = some "1999-13-45" :=
  claim_C10.1 "991345-67-8901" (by decide)

/-! ## Claim C4

As stated the claim is false: the regex carries two `\b` word
boundaries, so a pattern occurrence immediately preceded (or followed)
by a letter, digit or underscore is not matched at all.  The
counterexample embeds the separatorless pattern directly after the
letter `A`.  The amended claim restricts to boundary-delimited
occurrences, for which extraction and leftmost preference hold. -/

/-- Counterexample to claim C4 as stated: `"A900101141234"` contains the
bare ID digit pattern at offset 1, yet extraction returns no ID number,
because the occurrence is immediately preceded by a word character. -/
theorem claim_C4_counterexample :
    IcShapeAt (upperStr "A900101141234").data 1 "900101".data "14".data "1234".data
    ∧ (parse_fields "A900101141234").ic_number = none := by
  constructor
  · exact ⟨by decide, by decide, by decide, by decide, by decide, by decide,
      "A".data, [], [], [], by decide, by decide, Or.inl rfl, Or.inl rfl⟩
  · decide

/-- Claim C4 (amended): for occurrences of the ID digit pattern that are
delimited by word boundaries, the extracted id-number field is exactly
the leftmost such occurrence normalized to `NNNNNN-NN-NNNN`, and any
boundary-delimited occurrence guarantees the field is present. -/
theorem claim_C4 (text : String) :
    (∀ s, (parse_fields text).ic_number = some s ↔
      ∃ i g1 g2 g3, IcOccursAt (upperStr text).data i g1 g2 g3 ∧
        s = normalizedIc g1 g2 g3 ∧
        ∀ j h1 h2 h3, IcOccursAt (upperStr text).data j h1 h2 h3 → i ≤ j)
    ∧ (∀ i g1 g2 g3, IcOccursAt (upperStr text).data i g1 g2 g3 →
        ∃ s, (parse_fields text).ic_number = some s) := by
  constructor
  · intro s
    rw [parse_fields_ic]
    constructor
    · intro hs
      cases h : nricSearch (upperStr text).data with
      | none => rw [h] at hs; exact absurd hs (by simp)
      | some g =>
        obtain ⟨g1, g2, g3⟩ := g
        rw [h] at hs
        simp only [Option.some.injEq] at hs
        obtain ⟨i, hw, hm, hmin⟩ := (nricSearchAux_some_iff _ false _).mp h
        refine ⟨i, g1, g2, g3, (icOccursAt_iff _ _ _ _ _).mpr ⟨hw, hm⟩, hs.symm, ?_⟩
        intro j h1 h2 h3 hocc
        obtain ⟨hwj, hmj⟩ := (icOccursAt_iff _ _ _ _ _).mp hocc
        by_contra hcon
        push_neg at hcon
        exact hmin j hcon ⟨hwj, by rw [hmj]; rfl⟩
    · rintro ⟨i, g1, g2, g3, hocc, hs, hleft⟩
      obtain ⟨hw, hm⟩ := (icOccursAt_iff _ _ _ _ _).mp hocc
      have hsearch : nricSearch (upperStr text).data = some (g1, g2, g3) := by
        apply (nricSearchAux_some_iff _ false _).mpr
        refine ⟨i, hw, hm, ?_⟩
        intro j hj hbad
        obtain ⟨hwj, hsj⟩ := hbad
        obtain ⟨g, hmj⟩ := Option.isSome_iff_exists.mp hsj
        obtain ⟨h1, h2, h3⟩ := g
        have := hleft j h1 h2 h3 ((icOccursAt_iff _ _ _ _ _).mpr ⟨hwj, hmj⟩)
        omega
      rw [hsearch, hs]
  · intro i g1 g2 g3 hocc
    obtain ⟨hw, hm⟩ := (icOccursAt_iff _ _ _ _ _).mp hocc
    have hex : ∃ j, wordB (upperStr text).data false j = false ∧
        (matchNric ((upperStr text).data.drop j)).isSome = true :=
      ⟨i, hw, by rw [hm]; rfl⟩
    have hk := Nat.find_spec hex
    obtain ⟨g, hmk⟩ := Option.isSome_iff_exists.mp hk.2
    obtain ⟨k1, k2, k3⟩ := g
    have hsearch : nricSearch (upperStr text).data = some (k1, k2, k3) := by
      apply (nricSearchAux_some_iff _ false _).mpr
      exact ⟨Nat.find hex, hk.1, hmk,
        fun j hj hbad => Nat.find_min hex hj hbad⟩
    refine ⟨normalizedIc k1 k2 k3, ?_⟩
    rw [parse_fields_ic, hsearch]

/-- Witness for claim C4: a boundary-delimited, separatorless occurrence
after noise is extracted (its offset in `"A 900101141234"` is 2). -/
theorem claim_C4_witness :
    ∃ s, (parse_fields "A 900101141234").ic_number = some s :=
  (claim_C4 "A 900101141234").2 2 "900101".data "14".data "1234".data
    ⟨by decide, by decide, by decide, by decide, by decide, by decide,
      "A ".data, [], [], [], by decide, by decide, Or.inl rfl, Or.inl rfl,
      Or.inr ⟨['A'], ' ', by decide, by decide⟩, Or.inl rfl⟩

/-! ## Claims C6 and C7 -/

/-- `find?` returns exactly the first list element satisfying the
predicate. -/
theorem find?_first {α : Type} (p : α → Bool) :
    ∀ (l : List α) (a : α),
    l.find? p = some a ↔
    ∃ l1 l2, l = l1 ++ a :: l2 ∧ p a = true ∧ ∀ x ∈ l1, p x = false := by
  intro l
  induction l with
  | nil => intro a; simp
  | cons c l ih =>
    intro a
    rw [List.find?_cons]
    cases hc : p c with
    | true =>
      simp only []
      constructor
      · intro h
        simp only [Option.some.injEq] at h
        subst h
        exact ⟨[], l, rfl, hc, by simp⟩
      · rintro ⟨l1, l2, heq, hpa, hall⟩
        cases l1 with
        | nil =>
          simp only [List.nil_append, List.cons.injEq] at heq
          rw [heq.1]
        | cons x l1 =>
          simp only [List.cons_append, List.cons.injEq] at heq
          have hx : p x = false := hall x (by simp)
          rw [← heq.1] at hx
          rw [hc] at hx
          exact absurd hx (by simp)
    | false =>
      simp only []
      rw [ih a]
      constructor
      · rintro ⟨l1, l2, heq, hpa, hall⟩
        refine ⟨c :: l1, l2, by rw [heq, List.cons_append], hpa, ?_⟩
        intro x hx
        rcases List.mem_cons.mp hx with h | h
        · rw [h]; exact hc
        · exact hall x h
      · rintro ⟨l1, l2, heq, hpa, hall⟩
        cases l1 with
        | nil =>
          simp only [List.nil_append, List.cons.injEq] at heq
          rw [heq.1] at hc
          rw [hc] at hpa
          exact absurd hpa (by simp)
        | cons x l1 =>
          simp only [List.cons_append, List.cons.injEq] at heq
          exact ⟨l1, l2, heq.2, hpa, fun y hy => hall y (by simp [hy])⟩

/-- Claim C6: the extracted name is the first of the first 8 non-blank
(upper-cased, stripped) lines passing the name heuristic; when none of
those 8 passes — regardless of anything on line 9 or later — the name is
absent. -/
theorem claim_C6 (text : String) :
    ((parse_fields text).name = none ↔
      ∀ ln ∈ (docLines text).take 8, nameOk ln = false)
    ∧ ∀ s : String, ((parse_fields text).name = some s ↔
        ∃ l1 l2, (docLines text).take 8 = l1 ++ s.data :: l2 ∧
          nameOk s.data = true ∧ ∀ ln ∈ l1, nameOk ln = false) := by
  constructor
  · rw [parse_fields_name]
    rw [Option.map_eq_none']
    rw [List.find?_eq_none]
    constructor
    · intro h ln hln
      have := h ln hln
      simpa using this
    · intro h ln hln
      rw [h ln hln]
      simp
  · intro s
    rw [parse_fields_name]
    constructor
    · intro h
      rw [Option.map_eq_some'] at h
      obtain ⟨ln, hfind, hs⟩ := h
      obtain ⟨l1, l2, heq, hpa, hall⟩ := (find?_first nameOk _ ln).mp hfind
      have hdata : s.data = ln := by
        rw [← hs]
        exact List.toList_asString ln
      rw [hdata]
      exact ⟨l1, l2, heq, hpa, hall⟩
    · rintro ⟨l1, l2, heq, hpa, hall⟩
      have hfind : ((docLines text).take 8).find? nameOk = some s.data :=
        (find?_first nameOk _ s.data).mpr ⟨l1, l2, heq, hpa, hall⟩
      rw [hfind]
      simp only [Option.map_some']
      obtain ⟨d⟩ := s
      rfl

/-- Witness for claim C6: boilerplate and digit lines are skipped and
the third line is taken as the name. -/
theorem claim_C6_witness :
    (parse_fields "KAD X\n123\nALI BIN ABU").name = some "ALI BIN ABU" :=
  ((claim_C6 "KAD X\n123\nALI BIN ABU").2 "ALI BIN ABU").mpr
    ⟨["KAD X".data, "123".data], [], by decide, by decide, by decide⟩

/-- Claim C7: the extracted address joins (with a comma-space separator)
the first at most 3 non-blank lines containing an address-indicator
token, in original order; it is absent iff no line has an indicator. -/
theorem claim_C7 (text : String) :
    ((parse_fields text).address = none ↔
      ∀ ln ∈ docLines text, hasAddressKeyword ln = false)
    ∧ ∀ s : String, (parse_fields text).address = some s →
        ∃ sel : List (List Char),
          sel = ((docLines text).filter hasAddressKeyword).take 3 ∧
          sel.length ≤ 3 ∧ sel.Sublist (docLines text) ∧
          (∀ ln ∈ sel, hasAddressKeyword ln = true) ∧
          s = (joinSep ", ".data sel).asString := by
  constructor
  · rw [parse_fields_address]
    by_cases he : ((docLines text).filter hasAddressKeyword).isEmpty
    · rw [if_pos he]
      rw [List.isEmpty_iff] at he
      have hall := List.filter_eq_nil_iff.mp he
      constructor
      · intro _ ln hln
        have := hall ln hln
        simpa using this
      · intro _
        rfl
    · rw [if_neg he]
      constructor
      · intro h
        exact absurd h (by simp)
      · intro hall
        exfalso
        apply he
        rw [List.isEmpty_iff]
        rw [List.filter_eq_nil_iff]
        intro a ha
        rw [hall a ha]
        simp
  · intro s hs
    rw [parse_fields_address] at hs
    by_cases he : ((docLines text).filter hasAddressKeyword).isEmpty
    · rw [if_pos he] at hs
      exact absurd hs (by simp)
    · rw [if_neg he] at hs
      simp only [Option.some.injEq] at hs
      refine ⟨_, rfl, ?_, ?_, ?_, hs.symm⟩
      · rw [List.length_take]; omega
      · exact (List.take_sublist _ _).trans (List.filter_sublist _)
      · intro ln hln
        exact List.of_mem_filter (List.mem_of_mem_take hln)

/-- Witness for claim C7: two indicator lines around a non-indicator
line are selected in order and joined with a comma and a space. -/
theorem claim_C7_witness :
    ∃ sel : List (List Char),
      sel = ((docLines "JALAN A\nX\nTAMAN B").filter hasAddressKeyword).take 3 ∧
      sel.length ≤ 3 ∧ sel.Sublist (docLines "JALAN A\nX\nTAMAN B") ∧
      (∀ ln ∈ sel, hasAddressKeyword ln = true) ∧
      "JALAN A, TAMAN B" = (joinSep ", ".data sel).asString :=
  (claim_C7 "JALAN A\nX\nTAMAN B").2 "JALAN A, TAMAN B" (by decide)

/-! ## Claim C2 -/

theorem tryCandidates_none {β : Type} (openF : String → Option β) :
    ∀ ps : List String,
    (tryCandidates openF ps).1 = none ↔ ∀ p ∈ ps, openF p = none := by
  intro ps
  induction ps with
  | nil => simp [tryCandidates]
  | cons p ps ih =>
    cases ho : openF p with
    | some b => simp [tryCandidates, ho]
    | none => simp [tryCandidates, ho, ih]

theorem tryCandidates_some {β : Type} (openF : String → Option β) :
    ∀ (ps : List String) (b : β),
    (tryCandidates openF ps).1 = some b ↔
    ∃ l1 p l2, ps = l1 ++ p :: l2 ∧ openF p = some b ∧
      ∀ q ∈ l1, openF q = none := by
  intro ps
  induction ps with
  | nil => intro b; simp [tryCandidates]
  | cons p ps ih =>
    intro b
    cases ho : openF p with
    | some b0 =>
      simp only [tryCandidates, ho]
      constructor
      · intro h
        simp only [Option.some.injEq] at h
        exact ⟨[], p, ps, rfl, by rw [ho, h], by simp⟩
      · rintro ⟨l1, q, l2, heq, hq, hall⟩
        cases l1 with
        | nil =>
          simp only [List.nil_append, List.cons.injEq] at heq
          rw [← heq.1] at hq
          rw [ho] at hq
          exact hq
        | cons x l1 =>
          simp only [List.cons_append, List.cons.injEq] at heq
          have hx : openF x = none := hall x (by simp)
          rw [← heq.1] at hx
          rw [ho] at hx
          exact absurd hx (by simp)
    | none =>
      simp only [tryCandidates, ho]
      rw [ih b]
      constructor
      · rintro ⟨l1, q, l2, heq, hq, hall⟩
        refine ⟨p :: l1, q, l2, by rw [heq, List.cons_append], hq, ?_⟩
        intro x hx
        rcases List.mem_cons.mp hx with h | h
        · rw [h]; exact ho
        · exact hall x h
      · rintro ⟨l1, q, l2, heq, hq, hall⟩
        cases l1 with
        | nil =>
          simp only [List.nil_append, List.cons.injEq] at heq
          rw [heq.1] at ho
          rw [ho] at hq
          exact absurd hq (by simp)
        | cons x l1 =>
          simp only [List.cons_append, List.cons.injEq] at heq
          exact ⟨l1, q, l2, heq.2, hq, fun y hy => hall y (by simp [hy])⟩

theorem read_local_result {β : Type} (fetch : String → Nat → Option β)
    (openF : String → Option β) (url : String)
    (h : strStartsWith url "http" = false) :
    (read_image_bytes fetch openF url).1 =
      match (tryCandidates openF (candidatePaths url)).1 with
      | some b => Except.ok b
      | none => Except.error (ImgError.NotFound url (candidatePaths url)) := by
  cases htc : tryCandidates openF (candidatePaths url) with
  | mk r es =>
    cases r with
    | some b => simp [read_image_bytes, h, htc]
    | none => simp [read_image_bytes, h, htc]

/-- Claim C2: a remote reference (recognized by the `http` prefix test)
issues exactly one GET with the 10-second timeout, propagating success
and failure without retry; a local reference tries the candidate paths
in order, returns the first successful open, and fails with `NotFound`
carrying the full candidate list iff no candidate opens; and the
candidate list is built exactly as described. -/
theorem claim_C2 {β : Type} (fetch : String → Nat → Option β)
    (openF : String → Option β) (url : String) :
    (strStartsWith url "http" = true →
      (read_image_bytes fetch openF url).2 = [FsEvent.httpGet url 10] ∧
      (∀ b, fetch url 10 = some b →
        (read_image_bytes fetch openF url).1 = Except.ok b) ∧
      (fetch url 10 = none →
        (read_image_bytes fetch openF url).1 =
          Except.error ImgError.FetchFailed))
    ∧ (strStartsWith url "http" = false →
      (∀ b, (read_image_bytes fetch openF url).1 = Except.ok b ↔
        ∃ l1 p l2, candidatePaths url = l1 ++ p :: l2 ∧ openF p = some b ∧
          ∀ q ∈ l1, openF q = none) ∧
      ((∀ p ∈ candidatePaths url, openF p = none) ↔
        (read_image_bytes fetch openF url).1 =
          Except.error (ImgError.NotFound url (candidatePaths url))))
    ∧ (strStartsWith url "/" = true → strStartsWith url "/uploads" = true →
        candidatePaths url =
          [url, "/srv/" ++ lstripSlashes url, "/app/" ++ lstripSlashes url])
    ∧ (strStartsWith url "/" = true → strStartsWith url "/uploads" = false →
        candidatePaths url = [url])
    ∧ (strStartsWith url "/" = false →
        candidatePaths url = ["/srv/" ++ url, "/app/" ++ url]) := by
  refine ⟨?_, ?_, ?_, ?_, ?_⟩
  · intro h
    refine ⟨?_, ?_, ?_⟩
    · cases hf : fetch url 10 <;> simp [read_image_bytes, h, hf]
    · intro b hb
      simp [read_image_bytes, h, hb]
    · intro hb
      simp [read_image_bytes, h, hb]
  · intro h
    constructor
    · intro b
      rw [read_local_result fetch openF url h]
      have hmatch :
          ((match (tryCandidates openF (candidatePaths url)).1 with
            | some x => Except.ok x
            | none => Except.error (ImgError.NotFound url (candidatePaths url))) =
              Except.ok b) ↔
          (tryCandidates openF (candidatePaths url)).1 = some b := by
        cases (tryCandidates openF (candidatePaths url)).1 <;> simp
      rw [hmatch, tryCandidates_some]
    · rw [read_local_result fetch openF url h]
      rw [← tryCandidates_none openF (candidatePaths url)]
      cases (tryCandidates openF (candidatePaths url)).1 <;> simp
  · intro h1 h2
    simp [candidatePaths, h1, h2]
  · intro h1 h2
    simp [candidatePaths, h1, h2]
  · intro h1
    simp [candidatePaths, h1]

/-- Witness for claim C2: a concrete remote fetch and a concrete local
resolution through the second candidate. -/
theorem claim_C2_witness :
    ((read_image_bytes (fun _ _ => some 7) (fun _ => none) "http://x").2 =
      [FsEvent.httpGet "http://x" 10] ∧
     (read_image_bytes (fun _ _ => some 7) (fun _ => none) "http://x").1 =
      Except.ok 7)
    ∧ candidatePaths "img/a.png" = ["/srv/img/a.png", "/app/img/a.png"] := by
  constructor
  · have h := (claim_C2 (fun _ _ => some 7) (fun _ => none) "http://x").1 (by decide)
    exact ⟨h.1, h.2.1 7 rfl⟩
  · exact (claim_C2 (fun _ _ => (none : Option Nat)) (fun _ => none)
      "img/a.png").2.2.2.2 (by decide)

/-! ## Truthiness of extracted fields, and the merge -/

theorem joinSep_ne_nil_of_head (sep a : List Char) (rest : List (List Char))
    (ha : a ≠ []) : joinSep sep (a :: rest) ≠ [] := by
  cases rest with
  | nil => exact ha
  | cons y t =>
    show a ++ sep ++ joinSep sep (y :: t) ≠ []
    intro h
    rw [List.append_eq_nil] at h
    rw [List.append_eq_nil] at h
    exact ha h.1.1

theorem docLines_mem_ne_nil (text : String) (ln : List Char)
    (h : ln ∈ docLines text) : ln ≠ [] := by
  unfold docLines at h
  have hm := List.mem_filter.mp h
  intro hcon
  rw [hcon] at hm
  simp at hm

/-- For the IC field the Python truthiness test coincides with presence:
a matched IC number is never the empty string. -/
theorem truthy_parse_ic (text : String) :
    truthy (parse_fields text).ic_number = (parse_fields text).ic_number.isSome := by
  rw [parse_fields_ic]
  cases h : nricSearch (upperStr text).data with
  | none => rfl
  | some g =>
    obtain ⟨g1, g2, g3⟩ := g
    show (!(normalizedIc g1 g2 g3 == "")) = true
    have hne : normalizedIc g1 g2 g3 ≠ "" := by
      intro hcon
      have hdat : g1 ++ ('-' :: (g2 ++ ('-' :: g3))) = [] := by
        have := congrArg String.data hcon
        exact this
      rw [List.append_eq_nil] at hdat
      exact absurd hdat.2 (by simp)
    rw [beq_eq_false_iff_ne.mpr hne]
    rfl

/-- For the address field the Python truthiness test coincides with
presence: a joined address line list is never the empty string. -/
theorem truthy_parse_address (text : String) :
    truthy (parse_fields text).address = (parse_fields text).address.isSome := by
  rw [parse_fields_address]
  by_cases he : ((docLines text).filter hasAddressKeyword).isEmpty
  · rw [if_pos he]; rfl
  · rw [if_neg he]
    cases hA : (docLines text).filter hasAddressKeyword with
    | nil => rw [hA] at he; exact absurd rfl he
    | cons a rest =>
      have ha : a ≠ [] := by
        apply docLines_mem_ne_nil text
        have : a ∈ (docLines text).filter hasAddressKeyword := by rw [hA]; simp
        exact (List.mem_filter.mp this).1
      show (!((joinSep ", ".data ((a :: rest).take 3)).asString == "")) = true
      rw [List.take_succ_cons]
      have hne : (joinSep ", ".data (a :: rest.take 2)).asString ≠ "" := by
        intro hcon
        have := List.asString_eq.mp hcon
        exact joinSep_ne_nil_of_head ", ".data a (rest.take 2) ha this
      rw [beq_eq_false_iff_ne.mpr hne]
      rfl

/-- What the two backfill `if`s of the source compute, field by field. -/
theorem merge_eq (f b : ExtractedFields) :
    mergeFields f b =
      { name := f.name,
        ic_number :=
          if !truthy f.ic_number && truthy b.ic_number
          then b.ic_number else f.ic_number,
        dob := f.dob,
        address :=
          if !truthy f.address && truthy b.address
          then b.address else f.address } := by
  unfold mergeFields
  by_cases h1 : (!truthy f.ic_number && truthy b.ic_number) = true
  · by_cases h2 : (!truthy f.address && truthy b.address) = true
    · simp [h1, h2]
    · simp [h1, h2]
  · by_cases h2 : (!truthy f.address && truthy b.address) = true
    · simp [h1, h2]
    · simp [h1, h2]

theorem merge_none_back (f : ExtractedFields) :
    mergeFields f
      { name := none, ic_number := none, dob := none, address := none } = f := by
  rw [merge_eq]
  show ({ name := f.name, ic_number := _, dob := f.dob, address := _ } :
    ExtractedFields) = f
  simp [truthy]

theorem parse_fields_empty :
    parse_fields "" =
      { name := none, ic_number := none, dob := none, address := none } := by
  decide

/-! ## Unfolding the endpoint under explicit resolution outcomes -/

theorem ocr_front_only {β ε : Type} (read : String → Except ε β)
    (toText : β → Except ε String) (fUrl : String) (fb : β) (ftext : String)
    (hf : read fUrl = Except.ok fb) (hft : toText fb = Except.ok ftext) :
    ocr read toText ⟨fUrl, none⟩ = Except.ok (parse_fields ftext) := by
  simp [ocr, hf, hft]

theorem ocr_unfold {β ε : Type} (read : String → Except ε β)
    (toText : β → Except ε String) (fUrl bUrl : String) (fb : β) (ftext : String)
    (hf : read fUrl = Except.ok fb) (hft : toText fb = Except.ok ftext)
    (hne : bUrl ≠ "") :
    ocr read toText ⟨fUrl, some bUrl⟩ =
      match backPipeline read toText bUrl with
      | Except.error _ => Except.ok (parse_fields ftext)
      | Except.ok back_fields =>
          Except.ok (mergeFields (parse_fields ftext) back_fields) := by
  have hb : (bUrl == "") = false := beq_eq_false_iff_ne.mpr hne
  simp only [ocr, hf, hft, hb, Bool.false_eq_true, if_false]

/-! ## Claim C3 -/

/-- Claim C3: when front and back both resolve and recognize, the result
is the front extraction with only `ic_number` and `address` possibly
changed, each adopted from the back exactly when the front lacks it and
the back has it; `name` and `dob` always equal the front's values. -/
theorem claim_C3 {β ε : Type} (read : String → Except ε β)
    (toText : β → Except ε String) (fUrl bUrl : String) (fb bb : β)
    (ftext btext : String)
    (hf : read fUrl = Except.ok fb) (hft : toText fb = Except.ok ftext)
    (hb : read bUrl = Except.ok bb) (hbt : toText bb = Except.ok btext)
    (hne : bUrl ≠ "") :
    ∃ r, ocr read toText ⟨fUrl, some bUrl⟩ = Except.ok r ∧
      r.name = (parse_fields ftext).name ∧
      r.dob = (parse_fields ftext).dob ∧
      r.ic_number =
        (if (parse_fields ftext).ic_number = none ∧
            (parse_fields btext).ic_number ≠ none
         then (parse_fields btext).ic_number
         else (parse_fields ftext).ic_number) ∧
      r.address =
        (if (parse_fields ftext).address = none ∧
            (parse_fields btext).address ≠ none
         then (parse_fields btext).address
         else (parse_fields ftext).address) := by
  refine ⟨mergeFields (parse_fields ftext) (parse_fields btext), ?_, ?_, ?_, ?_, ?_⟩
  · rw [ocr_unfold read toText fUrl bUrl fb ftext hf hft hne]
    simp [backPipeline, hb, hbt]
  · rw [merge_eq]
  · rw [merge_eq]
  · rw [merge_eq]
    show (if (!truthy (parse_fields ftext).ic_number &&
        truthy (parse_fields btext).ic_number) = true
      then (parse_fields btext).ic_number
      else (parse_fields ftext).ic_number) = _
    apply if_congr _ rfl rfl
    rw [truthy_parse_ic, truthy_parse_ic]
    cases hfi : (parse_fields ftext).ic_number <;>
      cases hbi : (parse_fields btext).ic_number <;> simp
  · rw [merge_eq]
    show (if (!truthy (parse_fields ftext).address &&
        truthy (parse_fields btext).address) = true
      then (parse_fields btext).address
      else (parse_fields ftext).address) = _
    apply if_congr _ rfl rfl
    rw [truthy_parse_address, truthy_parse_address]
    cases hfa : (parse_fields ftext).address <;>
      cases hba : (parse_fields btext).address <;> simp

/-- Witness for claim C3: back supplies the missing IC number, while the
front's name survives even though the back text has a name-like line. -/
theorem claim_C3_witness :
    ∃ r, ocr (fun u => if u = "F" then Except.ok 0 else Except.ok 1)
        (fun b : Nat => if b = 0 then (Except.ok "ALI BIN ABU" : Except Unit String)
          else Except.ok "OTHER NAME\n900101-14-1234")
        ⟨"F", some "B"⟩ = Except.ok r ∧
      r.name = (parse_fields "ALI BIN ABU").name ∧
      r.dob = (parse_fields "ALI BIN ABU").dob ∧
      r.ic_number =
        (if (parse_fields "ALI BIN ABU").ic_number = none ∧
            (parse_fields "OTHER NAME\n900101-14-1234").ic_number ≠ none
         then (parse_fields "OTHER NAME\n900101-14-1234").ic_number
         else (parse_fields "ALI BIN ABU").ic_number) ∧
      r.address =
        (if (parse_fields "ALI BIN ABU").address = none ∧
            (parse_fields "OTHER NAME\n900101-14-1234").address ≠ none
         then (parse_fields "OTHER NAME\n900101-14-1234").address
         else (parse_fields "ALI BIN ABU").address) :=
  claim_C3 _ _ "F" "B" 0 1 "ALI BIN ABU" "OTHER NAME\n900101-14-1234"
    rfl rfl rfl rfl (by decide)

/-! ## Claim C5 -/

/-- Claim C5: with a successful front pipeline, any failure in the back
path — resolution error, recognition error, or a decode failure (which
yields the empty text) — is fully absorbed and the result equals the
front-only extraction. -/
theorem claim_C5 {β ε : Type} (read : String → Except ε β)
    (toText : β → Except ε String) (fUrl bUrl : String) (fb : β)
    (ftext : String)
    (hf : read fUrl = Except.ok fb) (hft : toText fb = Except.ok ftext)
    (hne : bUrl ≠ "")
    (hback : (∃ e, read bUrl = Except.error e) ∨
      (∃ bb e, read bUrl = Except.ok bb ∧ toText bb = Except.error e) ∨
      (∃ bb, read bUrl = Except.ok bb ∧ toText bb = Except.ok "")) :
    ocr read toText ⟨fUrl, some bUrl⟩ = Except.ok (parse_fields ftext) := by
  rw [ocr_unfold read toText fUrl bUrl fb ftext hf hft hne]
  rcases hback with ⟨e, he⟩ | ⟨bb, e, hbb, hte⟩ | ⟨bb, hbb, hte⟩
  · simp [backPipeline, he]
  · simp [backPipeline, hbb, hte]
  · simp [backPipeline, hbb, hte, parse_fields_empty, merge_none_back]

/-- Witness for claim C5: an unresolvable back reference leaves the
front-only result intact. -/
theorem claim_C5_witness :
    ocr (fun u => if u = "F" then Except.ok 0 else Except.error ())
      (fun _ : Nat => (Except.ok "HELLO" : Except Unit String))
      ⟨"F", some "B"⟩ = Except.ok (parse_fields "HELLO") :=
  claim_C5 _ _ "F" "B" 0 "HELLO" rfl rfl (by decide) (Or.inl ⟨(), rfl⟩)

/-! ## Claim C8 -/

/-- Claim C8: if the back extraction supplies no field the front lacks,
the front+back request and the front-only request return identical
results (both the front extraction). -/
theorem claim_C8 {β ε : Type} (read : String → Except ε β)
    (toText : β → Except ε String) (fUrl bUrl : String) (fb bb : β)
    (ftext btext : String)
    (hf : read fUrl = Except.ok fb) (hft : toText fb = Except.ok ftext)
    (hb : read bUrl = Except.ok bb) (hbt : toText bb = Except.ok btext)
    (hne : bUrl ≠ "")
    (hname : (parse_fields btext).name.isSome = true →
      (parse_fields ftext).name.isSome = true)
    (hic : (parse_fields btext).ic_number.isSome = true →
      (parse_fields ftext).ic_number.isSome = true)
    (hdob : (parse_fields btext).dob.isSome = true →
      (parse_fields ftext).dob.isSome = true)
    (haddr : (parse_fields btext).address.isSome = true →
      (parse_fields ftext).address.isSome = true) :
    ocr read toText ⟨fUrl, some bUrl⟩ = ocr read toText ⟨fUrl, none⟩ ∧
    ocr read toText ⟨fUrl, some bUrl⟩ = Except.ok (parse_fields ftext) := by
  have h1 : (!truthy (parse_fields ftext).ic_number &&
      truthy (parse_fields btext).ic_number) = false := by
    rw [truthy_parse_ic, truthy_parse_ic]
    cases hbi : (parse_fields btext).ic_number.isSome with
    | false => simp
    | true => rw [hic hbi]; rfl
  have h2 : (!truthy (parse_fields ftext).address &&
      truthy (parse_fields btext).address) = false := by
    rw [truthy_parse_address, truthy_parse_address]
    cases hba : (parse_fields btext).address.isSome with
    | false => simp
    | true => rw [haddr hba]; rfl
  have hmerge : mergeFields (parse_fields ftext) (parse_fields btext) =
      parse_fields ftext := by
    rw [merge_eq, h1, h2]
    simp
  have hboth : ocr read toText ⟨fUrl, some bUrl⟩ =
      Except.ok (parse_fields ftext) := by
    rw [ocr_unfold read toText fUrl bUrl fb ftext hf hft hne]
    simp [backPipeline, hb, hbt, hmerge]
  exact ⟨by rw [hboth, ocr_front_only read toText fUrl fb ftext hf hft], hboth⟩

/-- Witness for claim C8: an all-absent back extraction changes
nothing. -/
theorem claim_C8_witness :
    ocr (fun u => if u = "F" then Except.ok 0 else Except.ok 1)
      (fun b : Nat => if b = 0 then (Except.ok "HELLO" : Except Unit String)
        else Except.ok "")
      ⟨"F", some "B"⟩ =
    ocr (fun u => if u = "F" then Except.ok 0 else Except.ok 1)
      (fun b : Nat => if b = 0 then (Except.ok "HELLO" : Except Unit String)
        else Except.ok "")
      ⟨"F", none⟩ :=
  (claim_C8 _ _ "F" "B" 0 1 "HELLO" "" rfl rfl rfl rfl (by decide)
    (by decide) (by decide) (by decide) (by decide)).1

/-! ## Claim C9 -/

/-- Claim C9: an IC number adopted from the back image during the merge
does not bring a date of birth with it — the dob derivation is not
re-run, so the merged result has a present id number and an absent date
of birth, even though the back text alone would have produced
`1990-01-01`. -/
theorem claim_C9 :
    ocr (fun u => if u = "F" then Except.ok 0 else Except.ok 1)
      (fun b : Nat => if b = 0 then (Except.ok "HELLO" : Except Unit String)
        else Except.ok "900101-14-1234")
      ⟨"F", some "B"⟩ =
      Except.ok { name := some "HELLO", ic_number := some "900101-14-1234",
                  dob := none, address := none } ∧
    (parse_fields "HELLO").ic_number = none ∧
    (parse_fields "900101-14-1234").ic_number = some "900101-14-1234" ∧
    (parse_fields "900101-14-1234").dob = some "1990-01-01" := by
  refine ⟨rfl, by decide, by decide, by decide⟩
